import Mathlib

/-!
Shallow embedding of the graph execution engine of `engine/core.py`
(class `GraphEngine`), together with the API-level record shapes it
maintains (`engine/models.py`).  Python dictionaries are modelled as
association lists with first-key-wins lookup and in-place update
(`dget` / `dset`), mirroring dict semantics for the operations the
engine uses.  `uuid.uuid4()` calls are modelled by an explicit
`fresh_id` parameter supplied by the environment.  Step callables
(synchronous or coroutine — the engine awaits both uniformly, so the
distinction is semantically invisible) are modelled as pure functions
from the shared state to `Except String (StepResult × σ)`: an `.error`
models the callable raising, and the returned `σ` models the state
object after the callable's in-place mutations.
-/

/-- Python `d.get(k)` on a dict modelled as an association list. -/
def dget {κ α : Type} [DecidableEq κ] : List (κ × α) → κ → Option α
  | [], _ => Option.none
  | (k', v) :: rest, k => if k' = k then some v else dget rest k

/-- Python `d[k] = v` on a dict modelled as an association list. -/
def dset {κ α : Type} [DecidableEq κ] : List (κ × α) → κ → α → List (κ × α)
  | [], k, v => [(k, v)]
  | (k', v') :: rest, k, v =>
      if k' = k then (k, v) :: rest else (k', v') :: dset rest k v

/-- The shapes a step callable's return value can take, as inspected by
`execute_graph`'s transition logic: a Python `str`, `None`, a `dict`
(where only the presence and value of the `"next"` key matters to the
engine: `dictRes Option.none` is a dict without a `"next"` key,
`dictRes (some v)` a dict whose `"next"` key holds the string or
`None` value `v`), or any other value. -/
inductive StepResult where
  | strRes (s : String)
  | noneRes
  | dictRes (nxt : Option (Option String))
  | otherRes
deriving DecidableEq, Repr

/-- A node function from the engine's `_node_registry`, invoked with the
shared state (the tool registry argument is opaque to the engine and is
absorbed into the closure). -/
def NodeFn (σ : Type) : Type := σ → Except String (StepResult × σ)

/-- A registered graph: `{"nodes": ..., "edges": ..., "start_node_id": ...}`
as stored by `create_graph`. -/
structure GraphDef where
  nodes : List (String × String)
  edges : List (String × String)
  start_node_id : String
deriving DecidableEq, Repr

/-- One entry of the engine's `_runs` store. -/
structure RunRecord (σ : Type) where
  graph_id : String
  state : Option σ
  log : List String
  status : String

/-- The `GraphEngine` object's mutable fields: `_graphs`,
`_node_registry`, `_runs`. -/
structure GraphEngine (σ : Type) where
  graphs : List (String × GraphDef)
  node_registry : List (String × NodeFn σ)
  runs : List (String × RunRecord σ)

/-- The f-string `f"Executing node: {current_node}"`. -/
def execLine (n : String) : String := "Executing node: " ++ n

/-- The f-string `f"Node '{current_node}' requested next node '{next_node}'"`. -/
def requestLine (cur nxt : String) : String :=
  "Node '" ++ cur ++ "' requested next node '" ++ nxt ++ "'"

/-- The message of `RuntimeError(f"No function mapped for node id '{current_node}'")`. -/
def unmappedMsg (n : String) : String :=
  "No function mapped for node id '" ++ n ++ "'"

/-- The message of `RuntimeError(f"Function '{fn_name}' not registered in node registry")`. -/
def unregisteredMsg (f : String) : String :=
  "Function '" ++ f ++ "' not registered in node registry"

/-- The f-string `f"error: {e}"` appended to a failed run's log. -/
def errorLine (m : String) : String := "error: " ++ m

/-- Outcome of the dispatch `while` loop: normal exit carrying the final
state and execution log, or a raised exception carrying its message plus
the state and log at the point of the raise. -/
inductive LoopOut (σ : Type) where
  | ok (state : σ) (log : List String)
  | err (msg : String) (state : σ) (log : List String)

/-- The transition decision at the bottom of each loop iteration
(`next_node` selection): a non-empty string jumps explicitly and logs
the request; `None` and any unrecognised shape fall back to the default
edge; a dict with a `"next"` key uses that key's value verbatim. -/
def nextFrom (result : StepResult) (edges : List (String × String))
    (cur : String) (log : List String) : Option String × List String :=
  match result with
  | .strRes s =>
      if s = "" then (dget edges cur, log)
      else (some s, log ++ [requestLine cur s])
  | .noneRes => (dget edges cur, log)
  | .dictRes (some v) => (v, log)
  | .dictRes Option.none => (dget edges cur, log)
  | .otherRes => (dget edges cur, log)

/-- The dispatch `while` loop of `execute_graph`: runs while the current
node is not `None` and the step budget (modelled as fuel) is not
exhausted.  Each iteration appends the executing line, resolves the
node to a function name, the name to a callable, invokes it, and picks
the next node via `nextFrom`. -/
def execLoop {σ : Type} (nodes edges : List (String × String))
    (reg : List (String × NodeFn σ)) :
    Nat → Option String → σ → List String → LoopOut σ
  | 0, _, s, log => .ok s log
  | _ + 1, Option.none, s, log => .ok s log
  | fuel + 1, some cur, s, log =>
      let log1 := log ++ [execLine cur]
      match dget nodes cur with
      | Option.none => .err (unmappedMsg cur) s log1
      | some fn_name =>
        match dget reg fn_name with
        | Option.none => .err (unregisteredMsg fn_name) s log1
        | some fn =>
          match fn s with
          | .error e => .err e s log1
          | .ok (result, s') =>
            let nx := nextFrom result edges cur log1
            execLoop nodes edges reg fuel nx.1 s' nx.2

/-- `GraphEngine.create_graph`, with the generated uuid supplied as
`fresh_id`. -/
def create_graph {σ : Type} (eng : GraphEngine σ)
    (nodes edges : List (String × String)) (start_node_id : String)
    (fresh_id : String) : String × GraphEngine σ :=
  (fresh_id,
   { eng with graphs := dset eng.graphs fresh_id ⟨nodes, edges, start_node_id⟩ })

/-- `GraphEngine.graph_exists`. -/
def graph_exists {σ : Type} (eng : GraphEngine σ) (graph_id : String) : Bool :=
  (dget eng.graphs graph_id).isSome

/-- `GraphEngine.register_node`. -/
def register_node {σ : Type} (eng : GraphEngine σ) (fn_name : String)
    (fn : NodeFn σ) : GraphEngine σ :=
  { eng with node_registry := dset eng.node_registry fn_name fn }

/-- `GraphEngine.create_run_placeholder`, with the generated uuid
supplied as `fresh_id`. -/
def create_run_placeholder {σ : Type} (eng : GraphEngine σ)
    (graph_id : String) (fresh_id : String) : String × GraphEngine σ :=
  (fresh_id,
   { eng with runs := dset eng.runs fresh_id ⟨graph_id, Option.none, [], "created"⟩ })

/-- `GraphEngine.get_run`. -/
def get_run {σ : Type} (eng : GraphEngine σ) (run_id : String) :
    Option (RunRecord σ) :=
  dget eng.runs run_id

/-- `GraphEngine.execute_graph`.  Returns the Python return value (or the
raised exception's message), the engine state afterwards, and the ordered
list of status assignments made to the run store, as `(run_id, status)`
pairs.  The mid-loop writes of `log`/`state` into the run record are
subsumed by the final write (the record is the same object throughout,
so the last write wins for any post-call observer); the status field is
written exactly at the places recorded in the trace. -/
def execute_graph {σ : Type} (eng : GraphEngine σ) (graph_id : String)
    (state : σ) (run_id : Option String) (fresh_id : String)
    (max_steps : Nat) :
    Except String (σ × List String) × GraphEngine σ × List (String × String) :=
  match dget eng.graphs graph_id with
  | Option.none => (.error "Graph not found", eng, [])
  | some g =>
    let rid := run_id.getD fresh_id
    let runs1 := dset eng.runs rid ⟨graph_id, some state, [], "running"⟩
    match execLoop g.nodes g.edges eng.node_registry max_steps
        (some g.start_node_id) state [] with
    | .ok s' log =>
        (.ok (s', log),
         { eng with runs := dset runs1 rid ⟨graph_id, some s', log, "completed"⟩ },
         [(rid, "running"), (rid, "completed")])
    | .err msg s' log =>
        (.error msg,
         { eng with runs := dset runs1 rid ⟨graph_id, some s', log ++ [errorLine msg], "failed"⟩ },
         [(rid, "running"), (rid, "failed")])

/-- A node list forms a simple chain under `edges`: each node's default
edge points to the next, and the last node has no default edge. -/
def isChainB (edges : List (String × String)) : List String → Bool
  | [] => true
  | [a] => (dget edges a).isNone
  | a :: b :: rest => (dget edges a == some b) && isChainB edges (b :: rest)

/-- Node `n` is bound to a registered step that always returns `None`
(no explicit next-node instruction). -/
def nodeReturnsNil {σ : Type} (nodes : List (String × String))
    (reg : List (String × NodeFn σ)) (n : String) : Prop :=
  ∃ fname fn, dget nodes n = some fname ∧ dget reg fname = some fn ∧
    ∀ s, ∃ s', fn s = Except.ok (StepResult.noneRes, s')

/-- Every node satisfying `P` is bound to a registered step that always
returns a non-empty node-id string of a node again satisfying `P` (the
shape of an unbounded explicit loop-back). -/
def returnsNodeIn {σ : Type} (nodes : List (String × String))
    (reg : List (String × NodeFn σ)) (P : String → Prop) : Prop :=
  ∀ n, P n → ∃ fname fn, dget nodes n = some fname ∧ dget reg fname = some fn ∧
    ∀ s, ∃ t s', fn s = Except.ok (StepResult.strRes t, s') ∧ t ≠ "" ∧ P t

/-- One engine operation of the public run-lifecycle API. -/
inductive EngineOp (σ : Type) where
  | createPlaceholder (graph_id : String) (fresh_id : String)
  | executeOp (graph_id : String) (state : σ) (run_id : Option String)
      (fresh_id : String) (max_steps : Nat)
  | getRunOp (run_id : String)

/-- The run id whose record an operation writes, if any. -/
def opRunId {σ : Type} : EngineOp σ → Option String
  | .createPlaceholder _ f => some f
  | .executeOp _ _ rid f _ => some (rid.getD f)
  | .getRunOp _ => Option.none

/-- Apply one operation: the engine afterwards, and the ordered list of
status assignments it performed, as `(run_id, status)` pairs. -/
def applyOp {σ : Type} (eng : GraphEngine σ) :
    EngineOp σ → GraphEngine σ × List (String × String)
  | .createPlaceholder gid f =>
      ((create_run_placeholder eng gid f).2, [(f, "created")])
  | .executeOp gid st rid f ms =>
      ((execute_graph eng gid st rid f ms).2.1, (execute_graph eng gid st rid f ms).2.2)
  | .getRunOp _ => (eng, [])

/-- Apply a sequence of operations, concatenating status traces. -/
def runOps {σ : Type} (eng : GraphEngine σ) :
    List (EngineOp σ) → GraphEngine σ × List (String × String)
  | [] => (eng, [])
  | op :: rest =>
      let r := applyOp eng op
      let r2 := runOps r.1 rest
      (r2.1, r.2 ++ r2.2)

/-- The statuses assigned to run `r`, in order. -/
def traceFor (tr : List (String × String)) (r : String) : List String :=
  tr.filterMap (fun p => if p.1 = r then some p.2 else Option.none)

/-- The status run `r`'s record holds before any operation runs
(empty when there is no such record). -/
def initStatus {σ : Type} (eng : GraphEngine σ) (r : String) : List String :=
  match get_run eng r with
  | some rr => [rr.status]
  | Option.none => []

def isTerminalStatus (s : String) : Bool := s == "completed" || s == "failed"

def isActiveStatus (s : String) : Bool := s == "running" || s == "created"

/-- No terminal status (`completed`/`failed`) is ever followed by an
active one (`running`/`created`). -/
def noRegress : List String → Bool
  | [] => true
  | s :: rest =>
      (!(isTerminalStatus s) || rest.all (fun t => !(isActiveStatus t))) && noRegress rest

/-- The full status history of run `r` over an operation sequence:
its initial status followed by every status assigned to it. -/
def runStatusHistory {σ : Type} (eng : GraphEngine σ)
    (ops : List (EngineOp σ)) (r : String) : List String :=
  initStatus eng r ++ traceFor (runOps eng ops).2 r

/-- A step that returns `None` and leaves the state unchanged. -/
def nilStep : NodeFn Unit := fun s => .ok (.noneRes, s)

/-- A step that explicitly requests node `"A"` every time. -/
def loopStep : NodeFn Unit := fun s => .ok (.strRes "A", s)

/-- A step that returns a dict whose `"next"` key holds the empty string. -/
def emptyNextStep : NodeFn Unit := fun s => .ok (.dictRes (some (some "")), s)

/-- The spec's scenario graph: nodes `{A: stepA, B: stepB}`, edges
`{A → B}`, start node `A`. -/
def chainGraphAB : GraphDef := ⟨[("A", "stepA"), ("B", "stepB")], [("A", "B")], "A"⟩

/-- Engine holding `chainGraphAB` under graph id `"g"`, with both steps
registered and returning `None`. -/
def engAB : GraphEngine Unit :=
  ⟨[("g", chainGraphAB)], [("stepA", nilStep), ("stepB", nilStep)], []⟩

/-- A one-node graph whose step loops back to `"A"` forever. -/
def loopGraph : GraphDef := ⟨[("A", "stepLoop")], [], "A"⟩

def engLoop : GraphEngine Unit := ⟨[("g", loopGraph)], [("stepLoop", loopStep)], []⟩

/-- A graph binding node `"A"` to the step name `"ghost"`, which is not
registered. -/
def ghostGraph : GraphDef := ⟨[("A", "ghost")], [], "A"⟩

def engGhost : GraphEngine Unit := ⟨[("g", ghostGraph)], [], []⟩

/-- A graph whose start node `"X"` has no entry in the node mapping. -/
def unmappedGraph : GraphDef := ⟨[], [], "X"⟩

def engUnmapped : GraphEngine Unit := ⟨[("g", unmappedGraph)], [], []⟩

/-- A graph where node `"A"`'s step returns `{"next": ""}` and the empty
string is itself the id of a further node. -/
def emptyIdGraph : GraphDef := ⟨[("A", "stepEN"), ("", "stepB")], [], "A"⟩

def engEmptyId : GraphEngine Unit :=
  ⟨[("g", emptyIdGraph)], [("stepEN", emptyNextStep), ("stepB", nilStep)], []⟩

/-- A step that returns a dict whose `"next"` key holds `None`. -/
def nullNextStep : NodeFn Unit := fun s => .ok (.dictRes (some Option.none), s)

/-- A graph whose node `"A"` has a default edge to `"B"`, but whose step
returns `{"next": None}`. -/
def nullNextGraph : GraphDef := ⟨[("A", "stepNull"), ("B", "stepB")], [("A", "B")], "A"⟩

def engNullNext : GraphEngine Unit :=
  ⟨[("g", nullNextGraph)], [("stepNull", nullNextStep), ("stepB", nilStep)], []⟩

theorem dget_dset_self {κ α : Type} [DecidableEq κ] (l : List (κ × α)) (k : κ) (v : α) :
    dget (dset l k v) k = some v := by
  induction l with
  | nil => simp [dget, dset]
  | cons h t ih =>
    obtain ⟨k', v'⟩ := h
    by_cases hk : k' = k
    · subst hk; simp [dget, dset]
    · simp [dget, dset, hk, ih]

theorem dget_dset_ne {κ α : Type} [DecidableEq κ] (l : List (κ × α)) (k k' : κ) (v : α)
    (h : k' ≠ k) : dget (dset l k v) k' = dget l k' := by
  induction l with
  | nil => simp [dget, dset, Ne.symm h]
  | cons hd t ih =>
    obtain ⟨a, b⟩ := hd
    by_cases ha : a = k
    · subst ha; simp [dget, dset, Ne.symm h]
    · simp only [dset, if_neg ha]
      by_cases ha' : a = k'
      · simp [dget, ha']
      · simp [dget, ha', ih]

/-- C8: for a graph id absent from the engine's graph store,
`execute_graph` raises `Graph not found` (the code's `GraphNotFound`)
and the engine — in particular its run store — is left completely
unchanged: no run record is created or modified, and no status is
assigned. -/
theorem c8_unknown_graph {σ : Type} (eng : GraphEngine σ) (graph_id : String)
    (state : σ) (run_id : Option String) (fresh_id : String) (max_steps : Nat)
    (hg : dget eng.graphs graph_id = Option.none) :
    execute_graph eng graph_id state run_id fresh_id max_steps
      = (.error "Graph not found", eng, []) := by
  simp [execute_graph, hg]

/-- Witness for C8 at the empty engine and graph id `"nonexistent-id"`. -/
theorem c8_witness :
    dget (GraphEngine.graphs (⟨[], [], []⟩ : GraphEngine Unit)) "nonexistent-id"
      = Option.none ∧
    execute_graph (⟨[], [], []⟩ : GraphEngine Unit) "nonexistent-id" ()
        Option.none "r" 100
      = (.error "Graph not found", ⟨[], [], []⟩, []) :=
  ⟨rfl, c8_unknown_graph ⟨[], [], []⟩ "nonexistent-id" () Option.none "r" 100 rfl⟩

/-- C3: a step returning a non-empty node-id string makes the engine
continue at exactly that node — the graph's default edges are
universally quantified here and play no role, so an existing default
edge is overridden — and the engine appends the log line recording
that the explicit transition was requested. -/
theorem c3_explicit_override {σ : Type} (nodes edges : List (String × String))
    (reg : List (String × NodeFn σ)) (n fname t : String) (fn : NodeFn σ)
    (s s' : σ) (fuel : Nat) (log : List String)
    (hn : dget nodes n = some fname) (hr : dget reg fname = some fn)
    (hcall : fn s = Except.ok (StepResult.strRes t, s')) (ht : t ≠ "") :
    execLoop nodes edges reg (fuel + 1) (some n) s log
      = execLoop nodes edges reg fuel (some t) s'
          (log ++ [execLine n, requestLine n t]) := by
  simp [execLoop, hn, hr, hcall, nextFrom, ht]

/-- Witness for C3: the loop-back step at node `"A"` (default edges
empty) transitions explicitly to `"A"` and logs the request. -/
theorem c3_witness :
    execLoop loopGraph.nodes loopGraph.edges engLoop.node_registry 1 (some "A") () []
      = execLoop loopGraph.nodes loopGraph.edges engLoop.node_registry 0 (some "A") ()
          ([] ++ [execLine "A", requestLine "A" "A"]) :=
  c3_explicit_override loopGraph.nodes loopGraph.edges engLoop.node_registry
    "A" "stepLoop" "A" loopStep () () 0 [] rfl rfl rfl (by decide)

/-- C4 (amended): a step returning a dict with a `"next"` key makes the
engine continue at that key's value, ignoring the default edge; when
the value is `None` the run terminates at that point.  An EMPTY-STRING
value, however, does not terminate the run: it is used literally as
the next node id (see the counterexample). -/
theorem c4_dict_next {σ : Type} (nodes edges : List (String × String))
    (reg : List (String × NodeFn σ)) (n fname : String) (fn : NodeFn σ)
    (v : Option String) (s s' : σ) (fuel : Nat) (log : List String)
    (hn : dget nodes n = some fname) (hr : dget reg fname = some fn)
    (hcall : fn s = Except.ok (StepResult.dictRes (some v), s')) :
    execLoop nodes edges reg (fuel + 1) (some n) s log
      = execLoop nodes edges reg fuel v s' (log ++ [execLine n]) ∧
    (v = Option.none →
      execLoop nodes edges reg (fuel + 1) (some n) s log
        = .ok s' (log ++ [execLine n])) := by
  constructor
  · simp [execLoop, hn, hr, hcall, nextFrom]
  · rintro rfl
    cases fuel <;> simp [execLoop, hn, hr, hcall, nextFrom]

/-- Witness for C4: node `"A"` of `nullNextGraph` has a default edge to
`"B"`, but its step returns `{"next": None}`, so the run terminates at
`"A"`. -/
theorem c4_witness :
    execLoop nullNextGraph.nodes nullNextGraph.edges engNullNext.node_registry
        1 (some "A") () []
      = .ok () ([] ++ [execLine "A"]) :=
  (c4_dict_next nullNextGraph.nodes nullNextGraph.edges engNullNext.node_registry
    "A" "stepNull" nullNextStep Option.none () () 0 [] rfl rfl rfl).2 rfl

/-- Counterexample for C4 as stated: the step at `"A"` returns a dict
whose `"next"` value is the empty string, yet the run does NOT
terminate at that point — the engine continues and executes the node
with the empty-string id. -/
theorem c4_counterexample :
    emptyNextStep () = Except.ok (StepResult.dictRes (some (some "")), ()) ∧
    (execute_graph engEmptyId "g" () (some "r") "r" 100).1
      = Except.ok ((), [execLine "A", execLine ""]) ∧
    ([execLine "A", execLine ""] : List String) ≠ [execLine "A"] :=
  ⟨rfl, rfl, by decide⟩

/-- C2 (amended): in the spec's scenario (nodes `{A: stepA, B: stepB}`,
edges `{A → B}`, start `A`, both steps returning `None`), the execution
log is `["Executing node: A", "Executing node: B"]` and the run status
is `completed`.  Transitions are NOT recorded in the execution log —
the `Transitioning from ... to ...` text goes to the debug logger only
(see the counterexample). -/
theorem c2_scenario_log :
    (execute_graph engAB "g" () (some "r") "r" 100).1
      = Except.ok ((), ["Executing node: A", "Executing node: B"]) ∧
    (get_run (execute_graph engAB "g" () (some "r") "r" 100).2.1 "r").map RunRecord.status
      = some "completed" ∧
    (get_run (execute_graph engAB "g" () (some "r") "r" 100).2.1 "r").map RunRecord.log
      = some ["Executing node: A", "Executing node: B"] :=
  ⟨rfl, rfl, rfl⟩

/-- Counterexample for C2 as stated: the scenario's actual execution log
has two lines and contains no `Transitioning ...` entries, so it differs
from the four-line log the claim asserts. -/
theorem c2_counterexample :
    (execute_graph engAB "g" () (some "r") "r" 100).1
      = Except.ok ((), ["Executing node: A", "Executing node: B"]) ∧
    (["Executing node: A", "Executing node: B"] : List String)
      ≠ ["Executing node: A", "Transitioning from 'A' to 'B'",
         "Executing node: B", "Transitioning from 'B' to 'None'"] :=
  ⟨rfl, by decide⟩

/-- C7: when the dispatch loop fails (node resolution, step-name
resolution, or the step callable itself), `execute_graph` re-raises the
same error to the caller, and the run record — still inspectable via
`get_run` — has status `failed` and the log so far with
`error: <message>` appended.  No retry happens: the loop result is
final. -/
theorem c7_failure_handling {σ : Type} (eng : GraphEngine σ) (gid : String)
    (st : σ) (rid : Option String) (fresh : String) (ms : Nat) (g : GraphDef)
    (msg : String) (s' : σ) (lg : List String)
    (hg : dget eng.graphs gid = some g)
    (hloop : execLoop g.nodes g.edges eng.node_registry ms
        (some g.start_node_id) st [] = .err msg s' lg) :
    (execute_graph eng gid st rid fresh ms).1 = Except.error msg ∧
    get_run (execute_graph eng gid st rid fresh ms).2.1 (rid.getD fresh)
      = some ⟨gid, some s', lg ++ [errorLine msg], "failed"⟩ := by
  simp [execute_graph, hg, hloop, get_run, dget_dset_self]

/-- Witness for C7: running `engUnmapped` (start node `"X"` has no bound
step) fails, re-raises the unmapped-node message, and leaves a `failed`
record whose log ends in the error line. -/
theorem c7_witness :
    (execute_graph engUnmapped "g" () (some "r") "f" 5).1
      = Except.error (unmappedMsg "X") ∧
    get_run (execute_graph engUnmapped "g" () (some "r") "f" 5).2.1 "r"
      = some ⟨"g", some (), [execLine "X"] ++ [errorLine (unmappedMsg "X")], "failed"⟩ :=
  c7_failure_handling engUnmapped "g" () (some "r") "f" 5 unmappedGraph
    (unmappedMsg "X") () [execLine "X"] rfl rfl

/-- C9: reaching a node bound to a step name absent from the registry
fails the iteration with the unregistered-step message, with the node's
`Executing node: <id>` line already appended; for a run starting at such
a node, `execute_graph` raises that message and leaves a `failed` record
whose log preserves the node's entry. -/
theorem c9_unregistered_step {σ : Type} (nodes edges : List (String × String))
    (reg : List (String × NodeFn σ)) (n fname : String)
    (hn : dget nodes n = some fname) (hr : dget reg fname = Option.none) :
    (∀ (fuel : Nat) (s : σ) (log : List String),
       execLoop nodes edges reg (fuel + 1) (some n) s log
         = .err (unregisteredMsg fname) s (log ++ [execLine n])) ∧
    (∀ (eng : GraphEngine σ) (gid : String) (st : σ) (rid : Option String)
       (fresh : String) (m : Nat),
       eng.node_registry = reg →
       dget eng.graphs gid = some ⟨nodes, edges, n⟩ →
       (execute_graph eng gid st rid fresh (m + 1)).1
           = Except.error (unregisteredMsg fname) ∧
       get_run (execute_graph eng gid st rid fresh (m + 1)).2.1 (rid.getD fresh)
         = some ⟨gid, some st,
             [execLine n, errorLine (unregisteredMsg fname)], "failed"⟩) := by
  have hstep : ∀ (fuel : Nat) (s : σ) (log : List String),
      execLoop nodes edges reg (fuel + 1) (some n) s log
        = .err (unregisteredMsg fname) s (log ++ [execLine n]) := by
    intro fuel s log
    simp [execLoop, hn, hr]
  refine ⟨hstep, ?_⟩
  intro eng gid st rid fresh m hreg hg
  have h := c7_failure_handling eng gid st rid fresh (m + 1) ⟨nodes, edges, n⟩
    (unregisteredMsg fname) st [execLine n] hg (by rw [hreg]; exact hstep m st [])
  simpa using h

/-- Witness for C9 at `engGhost`: node `"A"` is bound to the step name
`"ghost"`, which is not registered. -/
theorem c9_witness :
    (execute_graph engGhost "g" () (some "r") "f" 3).1
      = Except.error (unregisteredMsg "ghost") ∧
    get_run (execute_graph engGhost "g" () (some "r") "f" 3).2.1 "r"
      = some ⟨"g", some (),
          [execLine "A", errorLine (unregisteredMsg "ghost")], "failed"⟩ :=
  (c9_unregistered_step ghostGraph.nodes ghostGraph.edges engGhost.node_registry
    "A" "ghost" rfl rfl).2 engGhost "g" () (some "r") "f" 2 rfl rfl

/-- C10: whatever `execute_graph` does — unknown graph, completion or
failure — the graph store and the node registry are unchanged, and every
run record other than the one keyed by the call's effective run id is
unchanged. -/
theorem c10_frame {σ : Type} (eng : GraphEngine σ) (gid : String) (st : σ)
    (rid : Option String) (fresh : String) (ms : Nat) :
    (execute_graph eng gid st rid fresh ms).2.1.graphs = eng.graphs ∧
    (execute_graph eng gid st rid fresh ms).2.1.node_registry = eng.node_registry ∧
    ∀ r : String, r ≠ rid.getD fresh →
      dget (execute_graph eng gid st rid fresh ms).2.1.runs r = dget eng.runs r := by
  cases hg : dget eng.graphs gid with
  | none => simp [execute_graph, hg]
  | some g =>
    cases hl : execLoop g.nodes g.edges eng.node_registry ms
        (some g.start_node_id) st [] with
    | ok s' log =>
      simp only [execute_graph, hg, hl]
      refine ⟨trivial, trivial, ?_⟩
      intro r hr
      rw [dget_dset_ne _ _ _ _ hr, dget_dset_ne _ _ _ _ hr]
    | err msg s' log =>
      simp only [execute_graph, hg, hl]
      refine ⟨trivial, trivial, ?_⟩
      intro r hr
      rw [dget_dset_ne _ _ _ _ hr, dget_dset_ne _ _ _ _ hr]

/-- Witness for C10: a completed run touches no other run record, here
checked for the id `"other"`. -/
theorem c10_witness :
    dget (execute_graph engAB "g" () (some "r") "x" 100).2.1.runs "other"
      = dget engAB.runs "other" :=
  (c10_frame engAB "g" () (some "r") "x" 100).2.2 "other" (by decide)

theorem execLoop_chain {σ : Type} (nodes edges : List (String × String))
    (reg : List (String × NodeFn σ)) :
    ∀ (rest : List String) (n : String) (fuel : Nat) (s : σ) (log : List String),
    isChainB edges (n :: rest) = true →
    (∀ m ∈ n :: rest, nodeReturnsNil nodes reg m) →
    rest.length < fuel →
    ∃ s', execLoop nodes edges reg fuel (some n) s log
        = .ok s' (log ++ (n :: rest).map execLine) := by
  intro rest
  induction rest with
  | nil =>
    intro n fuel s log hchain hnil hfuel
    obtain ⟨fname, fn, hn, hr, hstep⟩ := hnil n (by simp)
    obtain ⟨s', hs⟩ := hstep s
    have hedge : dget edges n = Option.none := by
      simpa [isChainB, Option.isNone_iff_eq_none] using hchain
    cases fuel with
    | zero => omega
    | succ f =>
      refine ⟨s', ?_⟩
      simp only [execLoop, hn, hr, hs, nextFrom, hedge]
      cases f <;> simp [execLoop]
  | cons b rest ih =>
    intro n fuel s log hchain hnil hfuel
    obtain ⟨fname, fn, hn, hr, hstep⟩ := hnil n (by simp)
    obtain ⟨s', hs⟩ := hstep s
    have hchain2 : dget edges n = some b ∧ isChainB edges (b :: rest) = true := by
      simpa [isChainB] using hchain
    cases fuel with
    | zero => omega
    | succ f =>
      obtain ⟨s'', hrec⟩ := ih b f s' (log ++ [execLine n]) hchain2.2
        (fun m hm => hnil m (List.mem_cons_of_mem n hm))
        (by simp at hfuel; omega)
      refine ⟨s'', ?_⟩
      simp only [execLoop, hn, hr, hs, nextFrom, hchain2.1]
      rw [hrec]
      simp

/-- C1 (amended): for a graph whose default edges form a simple chain
starting at the start node, with every chain node bound to a registered
step that returns `None`, and PROVIDED the step budget `max_steps` is at
least the chain length, `execute_graph` visits every chain node exactly
once, in edge order (the log is exactly the chain's executing lines),
and the run record finishes with status `completed`.  Without the
budget proviso the chain is truncated (see the counterexample). -/
theorem c1_linear_chain {σ : Type} (eng : GraphEngine σ) (gid : String)
    (st : σ) (rid : Option String) (fresh : String) (ms : Nat)
    (g : GraphDef) (n : String) (rest : List String)
    (hg : dget eng.graphs gid = some g)
    (hstart : g.start_node_id = n)
    (hchain : isChainB g.edges (n :: rest) = true)
    (hnil : ∀ m ∈ n :: rest, nodeReturnsNil g.nodes eng.node_registry m)
    (hms : (n :: rest).length ≤ ms) :
    ∃ s', (execute_graph eng gid st rid fresh ms).1
        = Except.ok (s', (n :: rest).map execLine) ∧
      get_run (execute_graph eng gid st rid fresh ms).2.1 (rid.getD fresh)
        = some ⟨gid, some s', (n :: rest).map execLine, "completed"⟩ := by
  subst hstart
  obtain ⟨s', hloop⟩ := execLoop_chain g.nodes g.edges eng.node_registry rest
    g.start_node_id ms st [] hchain hnil (by simp at hms; omega)
  refine ⟨s', ?_, ?_⟩ <;>
    simp [execute_graph, hg, hloop, get_run, dget_dset_self]

/-- Witness for C1 at the two-node chain `A → B` with budget 100. -/
theorem c1_witness :
    ∃ s', (execute_graph engAB "g" () (some "r") "r" 100).1
        = Except.ok (s', ["A", "B"].map execLine) ∧
      get_run (execute_graph engAB "g" () (some "r") "r" 100).2.1 "r"
        = some ⟨"g", some s', ["A", "B"].map execLine, "completed"⟩ :=
  c1_linear_chain engAB "g" () (some "r") "r" 100 chainGraphAB "A" ["B"] rfl rfl
    (by decide)
    (by
      intro m hm
      simp at hm
      rcases hm with rfl | rfl
      · exact ⟨"stepA", nilStep, rfl, rfl, fun s => ⟨s, rfl⟩⟩
      · exact ⟨"stepB", nilStep, rfl, rfl, fun s => ⟨s, rfl⟩⟩)
    (by decide)

/-- Counterexample for C1 as stated: the same chain graph `A → B` with
all-`None` steps, but a budget of 1, visits only node `A` — the run
still ends `completed`, yet node `B` is never visited, so visiting
every chain node is not guaranteed for every run. -/
theorem c1_counterexample :
    isChainB chainGraphAB.edges ["A", "B"] = true ∧
    (∀ m ∈ ["A", "B"], nodeReturnsNil chainGraphAB.nodes engAB.node_registry m) ∧
    (execute_graph engAB "g" () (some "r") "r" 1).1
      = Except.ok ((), [execLine "A"]) ∧
    (get_run (execute_graph engAB "g" () (some "r") "r" 1).2.1 "r").map RunRecord.status
      = some "completed" ∧
    ([execLine "A"] : List String) ≠ ["A", "B"].map execLine := by
  refine ⟨by decide, ?_, rfl, rfl, by decide⟩
  intro m hm
  simp at hm
  rcases hm with rfl | rfl
  · exact ⟨"stepA", nilStep, rfl, rfl, fun s => ⟨s, rfl⟩⟩
  · exact ⟨"stepB", nilStep, rfl, rfl, fun s => ⟨s, rfl⟩⟩

theorem execLoop_loopback {σ : Type} (nodes edges : List (String × String))
    (reg : List (String × NodeFn σ)) (P : String → Prop)
    (hP : returnsNodeIn nodes reg P) :
    ∀ (fuel : Nat) (n : String), P n → ∀ (s : σ) (log : List String),
      ∃ s' log', execLoop nodes edges reg fuel (some n) s log = .ok s' log' ∧
        log'.length = log.length + 2 * fuel := by
  intro fuel
  induction fuel with
  | zero => exact fun n _ s log => ⟨s, log, rfl, by simp⟩
  | succ f ih =>
    intro n hn s log
    obtain ⟨fname, fn, hnm, hr, hstep⟩ := hP n hn
    obtain ⟨t, s', hs, ht, hPt⟩ := hstep s
    obtain ⟨s'', log'', hrec, hlen⟩ := ih t hPt s' (log ++ [execLine n, requestLine n t])
    refine ⟨s'', log'', ?_, ?_⟩
    · simp only [execLoop, hnm, hr, hs, nextFrom, ht, if_neg ht]
      rw [← hrec]
      simp
    · rw [hlen]; simp; omega

/-- C5 (amended): for a graph whose reachable steps always return a
non-empty explicit node id (an unbounded loop-back) and any step budget
`max_steps`, `execute_graph` terminates, raises no error, the run record
finishes `completed`, and the returned log has length exactly
`2 * max_steps` — each of the `max_steps` iterations logs an executing
line AND an explicit-transition line (not `max_steps` lines total; see
the counterexample). -/
theorem c5_loopback_budget {σ : Type} (eng : GraphEngine σ) (gid : String)
    (st : σ) (rid : Option String) (fresh : String) (ms : Nat)
    (g : GraphDef) (P : String → Prop)
    (hg : dget eng.graphs gid = some g)
    (hP : returnsNodeIn g.nodes eng.node_registry P)
    (hstart : P g.start_node_id) :
    ∃ s' log', (execute_graph eng gid st rid fresh ms).1 = Except.ok (s', log') ∧
      log'.length = 2 * ms ∧
      get_run (execute_graph eng gid st rid fresh ms).2.1 (rid.getD fresh)
        = some ⟨gid, some s', log', "completed"⟩ := by
  obtain ⟨s', log', hloop, hlen⟩ := execLoop_loopback g.nodes g.edges
    eng.node_registry P hP ms g.start_node_id hstart st []
  refine ⟨s', log', ?_, by simpa using hlen, ?_⟩ <;>
    simp [execute_graph, hg, hloop, get_run, dget_dset_self]

/-- Witness for C5: the self-looping graph with budget 3 completes with
a log of length 6. -/
theorem c5_witness :
    ∃ s' log', (execute_graph engLoop "g" () (some "r") "r" 3).1
        = Except.ok (s', log') ∧
      log'.length = 2 * 3 ∧
      get_run (execute_graph engLoop "g" () (some "r") "r" 3).2.1 "r"
        = some ⟨"g", some s', log', "completed"⟩ :=
  c5_loopback_budget engLoop "g" () (some "r") "r" 3 loopGraph (fun x => x = "A")
    rfl
    (by rintro n rfl
        exact ⟨"stepLoop", loopStep, rfl, rfl,
          fun s => ⟨"A", s, rfl, by decide, rfl⟩⟩)
    rfl

/-- Counterexample for C5 as stated: the self-looping graph run with
`max_steps = 2` completes, but its log has 4 entries, not
`max_steps = 2` — each iteration contributes two log lines. -/
theorem c5_counterexample :
    (execute_graph engLoop "g" () (some "r") "r" 2).1
      = Except.ok ((), [execLine "A", requestLine "A" "A",
          execLine "A", requestLine "A" "A"]) ∧
    (get_run (execute_graph engLoop "g" () (some "r") "r" 2).2.1 "r").map RunRecord.status
      = some "completed" ∧
    ([execLine "A", requestLine "A" "A", execLine "A", requestLine "A" "A"] :
        List String).length ≠ 2 :=
  ⟨rfl, rfl, by decide⟩

theorem execute_graph_trace {σ : Type} (eng : GraphEngine σ) (gid : String)
    (st : σ) (rid : Option String) (fresh : String) (ms : Nat) :
    (execute_graph eng gid st rid fresh ms).2.2 = [] ∨
    ∃ t, (t = "completed" ∨ t = "failed") ∧
      (execute_graph eng gid st rid fresh ms).2.2
        = [(rid.getD fresh, "running"), (rid.getD fresh, t)] := by
  cases hg : dget eng.graphs gid with
  | none => left; simp [execute_graph, hg]
  | some g =>
    cases hl : execLoop g.nodes g.edges eng.node_registry ms
        (some g.start_node_id) st [] with
    | ok s' log =>
      right; exact ⟨"completed", Or.inl rfl, by simp [execute_graph, hg, hl]⟩
    | err msg s' log =>
      right; exact ⟨"failed", Or.inr rfl, by simp [execute_graph, hg, hl]⟩

theorem traceFor_append (a b : List (String × String)) (r : String) :
    traceFor (a ++ b) r = traceFor a r ++ traceFor b r := by
  simp [traceFor]

theorem noRegress_applyOp {σ : Type} (eng : GraphEngine σ) (op : EngineOp σ)
    (r : String) : noRegress (traceFor (applyOp eng op).2 r) = true := by
  cases op with
  | createPlaceholder gid f =>
    by_cases hf : f = r
    · subst hf; simp [applyOp, traceFor]; decide
    · simp [applyOp, traceFor, hf]; decide
  | executeOp gid st rid f ms =>
    rcases execute_graph_trace eng gid st rid f ms with h | ⟨t, ht, h⟩
    · simp [applyOp, h, traceFor]; decide
    · by_cases hr : rid.getD f = r
      · subst hr
        rcases ht with rfl | rfl <;> simp [applyOp, h, traceFor] <;> decide
      · simp [applyOp, h, traceFor, hr]; decide
  | getRunOp rid => simp [applyOp, traceFor]; decide

theorem traceFor_applyOp_ne {σ : Type} (eng : GraphEngine σ) (op : EngineOp σ)
    (r : String) (h : opRunId op ≠ some r) :
    traceFor (applyOp eng op).2 r = [] := by
  cases op with
  | createPlaceholder gid f =>
    have hf : ¬(f = r) := fun hh => h (by simp [opRunId, hh])
    simp [applyOp, traceFor, hf]
  | executeOp gid st rid f ms =>
    have hf : ¬(rid.getD f = r) := fun hh => h (by simp [opRunId, hh])
    rcases execute_graph_trace eng gid st rid f ms with hh | ⟨t, _, hh⟩
    · simp [applyOp, hh, traceFor]
    · simp [applyOp, hh, traceFor, hf]
  | getRunOp rid => simp [applyOp, traceFor]

theorem applyOp_runs_ne {σ : Type} (eng : GraphEngine σ) (op : EngineOp σ)
    (i : String) (h : opRunId op ≠ some i) :
    dget (applyOp eng op).1.runs i = dget eng.runs i := by
  cases op with
  | createPlaceholder gid f =>
    have hf : i ≠ f := fun hh => h (by simp [opRunId, hh])
    simp [applyOp, create_run_placeholder, dget_dset_ne _ _ _ _ hf]
  | executeOp gid st rid f ms =>
    have hf : i ≠ rid.getD f := fun hh => h (by simp [opRunId, hh])
    cases hg : dget eng.graphs gid with
    | none => simp [applyOp, execute_graph, hg]
    | some g =>
      cases hl : execLoop g.nodes g.edges eng.node_registry ms
          (some g.start_node_id) st [] with
      | ok s' log =>
        simp only [applyOp, execute_graph, hg, hl]
        rw [dget_dset_ne _ _ _ _ hf, dget_dset_ne _ _ _ _ hf]
      | err msg s' log =>
        simp only [applyOp, execute_graph, hg, hl]
        rw [dget_dset_ne _ _ _ _ hf, dget_dset_ne _ _ _ _ hf]
  | getRunOp rid => simp [applyOp]

theorem initStatus_applyOp_ne {σ : Type} (eng : GraphEngine σ) (op : EngineOp σ)
    (r : String) (h : opRunId op ≠ some r) :
    initStatus (applyOp eng op).1 r = initStatus eng r := by
  simp [initStatus, get_run, applyOp_runs_ne eng op r h]

theorem traceFor_runOps_ne {σ : Type} (eng : GraphEngine σ)
    (ops : List (EngineOp σ)) (r : String)
    (h : ∀ op ∈ ops, opRunId op ≠ some r) :
    traceFor (runOps eng ops).2 r = [] := by
  induction ops generalizing eng with
  | nil => simp [runOps, traceFor]
  | cons op rest ih =>
    simp only [runOps]
    rw [traceFor_append, traceFor_applyOp_ne eng op r (h op (by simp)),
      ih _ (fun o ho => h o (by simp [ho]))]
    rfl

theorem noRegress_initStatus {σ : Type} (eng : GraphEngine σ) (r : String) :
    noRegress (initStatus eng r) = true := by
  unfold initStatus
  cases get_run eng r with
  | none => rfl
  | some rr => simp [noRegress]

/-- C6 (amended): run statuses move only forward along
created → running → (completed | failed) PROVIDED each run id is
targeted by at most one placeholder-creation or execution operation and
the targeted ids have no pre-existing record: under that discipline no
operation ever moves a run back to `running`/`created` after
`completed`/`failed`.  Re-invoking `execute_graph` with an already-used
run id breaks the invariant (see the counterexample): the record is
reinitialised to `running`. -/
theorem c6_monotonic_status {σ : Type} (eng : GraphEngine σ)
    (ops : List (EngineOp σ)) (r : String)
    (hdist : (ops.filterMap opRunId).Nodup)
    (hfresh : ∀ i ∈ ops.filterMap opRunId, dget eng.runs i = Option.none) :
    noRegress (runStatusHistory eng ops r) = true := by
  induction ops generalizing eng with
  | nil => simpa [runStatusHistory, runOps, traceFor] using noRegress_initStatus eng r
  | cons op rest ih =>
    by_cases hop : opRunId op = some r
    · have hr_mem : r ∈ (op :: rest).filterMap opRunId :=
        List.mem_filterMap.mpr ⟨op, by simp, hop⟩
      have hinit : dget eng.runs r = Option.none := hfresh r hr_mem
      have hrest : ∀ o ∈ rest, opRunId o ≠ some r := by
        intro o ho heq
        have hdist' := hdist
        rw [List.filterMap_cons, hop] at hdist'
        exact (List.nodup_cons.mp hdist').1 (List.mem_filterMap.mpr ⟨o, ho, heq⟩)
      unfold runStatusHistory
      simp only [runOps]
      rw [traceFor_append, traceFor_runOps_ne _ rest r hrest]
      have hinit' : initStatus eng r = [] := by simp [initStatus, get_run, hinit]
      rw [hinit']
      simpa using noRegress_applyOp eng op r
    · unfold runStatusHistory
      simp only [runOps]
      rw [traceFor_append, traceFor_applyOp_ne eng op r hop]
      have hdist' : (rest.filterMap opRunId).Nodup := by
        rw [List.filterMap_cons] at hdist
        cases hj : opRunId op with
        | none => rwa [hj] at hdist
        | some j => rw [hj] at hdist; exact (List.nodup_cons.mp hdist).2
      have hfresh' : ∀ i ∈ rest.filterMap opRunId,
          dget (applyOp eng op).1.runs i = Option.none := by
        intro i hi
        have hne : opRunId op ≠ some i := by
          intro heq
          rw [List.filterMap_cons, heq] at hdist
          exact (List.nodup_cons.mp hdist).1 hi
        rw [applyOp_runs_ne eng op i hne]
        exact hfresh i (by rw [List.filterMap_cons]; cases hj : opRunId op <;>
          simp [hj, hi])
      have := ih (applyOp eng op).1 hdist' hfresh'
      unfold runStatusHistory at this
      rw [initStatus_applyOp_ne eng op r hop] at this
      simpa using this

/-- Counterexample for C6 as stated: invoking `execute_graph` twice with
the same run id produces the status history
`running, completed, running, completed` for that run — the record
re-enters `running` after `completed`. -/
theorem c6_counterexample :
    runStatusHistory engAB
      [EngineOp.executeOp "g" () (some "r") "x" 5,
       EngineOp.executeOp "g" () (some "r") "x" 5] "r"
      = ["running", "completed", "running", "completed"] ∧
    noRegress ["running", "completed", "running", "completed"] = false :=
  ⟨rfl, by decide⟩

/-- Witness for C6: a placeholder creation, one execution and an
inspection, on three fresh distinct ids, keep the history regression
free. -/
theorem c6_witness :
    noRegress (runStatusHistory engAB
      [EngineOp.createPlaceholder "g" "p",
       EngineOp.executeOp "g" () (some "r") "x" 5,
       EngineOp.getRunOp "r"] "r") = true :=
  c6_monotonic_status engAB
    [EngineOp.createPlaceholder "g" "p",
     EngineOp.executeOp "g" () (some "r") "x" 5,
     EngineOp.getRunOp "r"] "r" (by decide) (fun i _ => rfl)
